import Mathlib

/-!
# Verification of the Graphene better-graph-view core

A shallow embedding, in Lean 4, of the core of the
`obsidian-graphene-better-graph-view` plugin:

* the embedding cache / staleness model of `src/EmbeddingService.ts`
  (`getFileStatus`, `getEmbeddingStats`, `generateIncrementalEmbeddings`,
  `calculateCosineSimilarity`, `extractHeadingsAndFirstWords`), and
* the similarity-graph builder of the graph view
  (`createEmbeddingBasedLinks`, `calculateThicknessFromSimilarity`).

JavaScript numbers are modelled as exact rationals `ℚ` (for the graph
builder and the cache timestamps) or reals `ℝ` (for the cosine, whose
magnitudes use `Math.sqrt`); floating-point rounding is abstracted away,
which all the verified statements are insensitive to.  Where the source
divides by zero (`calculateThicknessFromSimilarity` at threshold `1`) the
IEEE special values are modelled explicitly by the `JSNum` type.
JavaScript objects used as string-keyed dictionaries are modelled as
association lists with first-match lookup and overwrite-or-append update,
which matches object-key semantics, and `Map`s (which iterate in insertion
order) as association lists built in insertion order.
-/

namespace Graphene

/-- The four values of `FileEmbeddingStatus['status']` in `src/types.ts`:
`'up-to-date' | 'modified' | 'new' | 'processing'`. -/
inductive Status where
  | upToDate
  | modified
  | new
  | processing
deriving DecidableEq, Repr

/-- `FileEmbeddingStatus` from `src/types.ts`: the per-document record kept
in `embeddingCache.files`. -/
structure FileEmbeddingStatus where
  path : String
  lastModified : ℤ
  embeddingGenerated : ℤ
  status : Status
deriving DecidableEq, Repr

/-- A JavaScript object used as a dictionary `path -> value`: an
association list with first-match lookup. -/
def lookupKey {α : Type} (m : List (String × α)) (k : String) : Option α :=
  match m.find? (fun e => e.1 = k) with
  | some e => some e.2
  | none => none

/-- Assignment `obj[k] = v` on a string-keyed object: overwrite the
existing binding, or append a new one. -/
def setKey {α : Type} (m : List (String × α)) (k : String) (v : α) :
    List (String × α) :=
  if (m.find? (fun e => e.1 = k)).isSome then
    m.map (fun e => if e.1 = k then (k, v) else e)
  else m ++ [(k, v)]

/-- The `files` map of the embedding cache. -/
abbrev Files := List (String × FileEmbeddingStatus)

/-- `EmbeddingService.getFileStatus` (src/EmbeddingService.ts:82-94).  The
file argument is reduced to the data the function reads from it: its path
and its `stat.mtime`.

```ts
const cached = this.embeddingCache.files[file.path];
if (!cached) { return 'new'; }
if (file.stat.mtime > cached.embeddingGenerated) { return 'modified'; }
return 'up-to-date';
``` -/
def getFileStatus (files : Files) (path : String) (mtime : ℤ) : Status :=
  match lookupKey files path with
  | none => Status.new
  | some cached =>
    if mtime > cached.embeddingGenerated then Status.modified
    else Status.upToDate

/-- The record type returned by `EmbeddingService.getEmbeddingStats`. -/
structure EmbeddingStats where
  total : ℕ
  upToDate : ℕ
  modified : ℕ
  new : ℕ
  processing : ℕ
deriving DecidableEq, Repr

/-- `EmbeddingService.getEmbeddingStats` (src/EmbeddingService.ts:96-117):
iterates over the vault's markdown files (here: a list of
`(path, mtime)` pairs) and counts the status `getFileStatus` assigns to
each. -/
def getEmbeddingStats (files : Files) (docs : List (String × ℤ)) :
    EmbeddingStats :=
  docs.foldl
    (fun stats d =>
      match getFileStatus files d.1 d.2 with
      | Status.upToDate => { stats with upToDate := stats.upToDate + 1 }
      | Status.modified => { stats with modified := stats.modified + 1 }
      | Status.new => { stats with new := stats.new + 1 }
      | Status.processing => { stats with processing := stats.processing + 1 })
    { total := docs.length, upToDate := 0, modified := 0, new := 0,
      processing := 0 }

/-! ## Incremental generation (`generateIncrementalEmbeddings`)

`src/EmbeddingService.ts:123-216`.  The interaction with the outside world
is reduced to data: each markdown file is a `Doc` carrying its path, its
`stat.mtime`, and the outcome the provider chain
(`vault.read` + `getEmbedding`) would produce for it.  `Date.now()` is
modelled as a logical clock that increases by one at each read.  The
`Notice`s, `console` output, progress callbacks and `saveCache` I/O have no
effect on the cache state and are dropped. -/

/-- The outcome of `await this.app.vault.read(file)` followed by
`await this.getEmbedding(cleanedText)` for one document: either an
embedding vector, or a thrown error whose message may contain `'429'`
(the quota-exceeded marker tested on line 199). -/
inductive Outcome where
  | ok (vec : List ℚ)
  | err (quota : Bool)
deriving DecidableEq, Repr

/-- One markdown file as seen by `generateIncrementalEmbeddings`. -/
structure Doc where
  path : String
  mtime : ℤ
  outcome : Outcome
deriving DecidableEq, Repr

/-- The mutable state touched by `generateIncrementalEmbeddings`:
`embeddingCache.files`, `embeddingCache.embeddings`, the logical clock
behind `Date.now()`, and the `processed` / `failed` counters. -/
structure GenState where
  files : List (String × FileEmbeddingStatus)
  embeddings : List (String × List ℚ)
  now : ℤ
  processed : ℕ
  failed : ℕ
deriving DecidableEq, Repr

/-- Lines 150-156: before each attempt the record is overwritten with
`status: 'processing'` and `embeddingGenerated: Date.now()`. -/
def beginProcessing (st : GenState) (d : Doc) : GenState :=
  { st with
    files := setKey st.files d.path
      { path := d.path, lastModified := d.mtime,
        embeddingGenerated := st.now, status := Status.processing },
    now := st.now + 1 }

/-- Lines 171-176, success branch (`embedding && embedding.length > 0`):
store the vector, set `status: 'up-to-date'`, refresh
`embeddingGenerated = Date.now()`, increment `processed`. -/
def commitEmbedding (st : GenState) (d : Doc) (vec : List ℚ) : GenState :=
  { st with
    embeddings := setKey st.embeddings d.path vec,
    files := setKey st.files d.path
      { path := d.path, lastModified := d.mtime,
        embeddingGenerated := st.now, status := Status.upToDate },
    now := st.now + 1,
    processed := st.processed + 1 }

/-- Line 205 (catch branch, non-quota): `files[file.path].status = 'modified'`.
The record exists because `beginProcessing` just wrote it. -/
def markModified (st : GenState) (d : Doc) : GenState :=
  { st with
    files := st.files.map (fun e =>
      if e.1 = d.path then (e.1, { e.2 with status := Status.modified })
      else e) }

/-- The `for (const file of needsUpdate)` loop body (lines 149-207),
including the `break` on a quota error: a quota error returns the state
reached so far without consuming the remaining documents. -/
def genLoop : GenState → List Doc → GenState
  | st, [] => st
  | st, d :: rest =>
    let st1 := beginProcessing st d
    match d.outcome with
    | Outcome.ok vec =>
      if vec.length > 0 then genLoop (commitEmbedding st1 d vec) rest
      else
        -- lines 177-180: `console.warn(...); failed++;` and nothing else —
        -- the record written by `beginProcessing` keeps status 'processing'
        genLoop { st1 with failed := st1.failed + 1 } rest
    | Outcome.err quota =>
      let st2 := { st1 with failed := st1.failed + 1 }
      if quota then st2 else genLoop (markModified st2 d) rest

/-- `EmbeddingService.generateIncrementalEmbeddings`
(src/EmbeddingService.ts:123-216): filter the vault's files to those whose
`getFileStatus` is `'new'` or `'modified'`, then run the generation loop
over them in order. -/
def generateIncrementalEmbeddings (st : GenState) (docs : List Doc) :
    GenState :=
  let needsUpdate := docs.filter (fun d =>
    getFileStatus st.files d.path d.mtime = Status.new ∨
    getFileStatus st.files d.path d.mtime = Status.modified)
  if needsUpdate.length = 0 then st else genLoop st needsUpdate

/-! ## IEEE special values and `calculateThicknessFromSimilarity`

The thickness computation (graph view source, lines 716-722) divides by
`1.0 - similarityThreshold` with no guard, so a threshold of exactly `1`
makes the JavaScript engine produce `NaN` or `±Infinity`.  `JSNum` models
an IEEE double as an exact rational plus the three special values; the
operations below implement the IEEE rules for the cases the thickness
formula can reach. -/

/-- A JavaScript number: a finite value (exact, ignoring rounding), `NaN`,
`Infinity` or `-Infinity`. -/
inductive JSNum where
  | num (q : ℚ)
  | nan
  | posInf
  | negInf
deriving DecidableEq, Repr

/-- IEEE division of two finite doubles: `0/0 = NaN`, `x/0 = ±Infinity`
for `x ≠ 0`, and exact division otherwise. -/
def jsDiv (a b : ℚ) : JSNum :=
  if b = 0 then
    if a = 0 then JSNum.nan
    else if a > 0 then JSNum.posInf
    else JSNum.negInf
  else JSNum.num (a / b)

/-- IEEE multiplication of a JavaScript number by a finite double:
`NaN * x = NaN`, `±Infinity * 0 = NaN`, `±Infinity * x` follows the sign
of `x`. -/
def jsMulNum (a : JSNum) (b : ℚ) : JSNum :=
  match a with
  | JSNum.num q => JSNum.num (q * b)
  | JSNum.nan => JSNum.nan
  | JSNum.posInf =>
    if b = 0 then JSNum.nan else if b > 0 then JSNum.posInf else JSNum.negInf
  | JSNum.negInf =>
    if b = 0 then JSNum.nan else if b > 0 then JSNum.negInf else JSNum.posInf

/-- IEEE addition of a finite double and a JavaScript number: `x + NaN = NaN`,
`x + ±Infinity = ±Infinity`. -/
def jsAddNum (a : ℚ) (b : JSNum) : JSNum :=
  match b with
  | JSNum.num q => JSNum.num (a + q)
  | JSNum.nan => JSNum.nan
  | JSNum.posInf => JSNum.posInf
  | JSNum.negInf => JSNum.negInf

/-- Whether a JavaScript number is finite. -/
def JSNum.isFinite : JSNum → Bool
  | JSNum.num _ => true
  | _ => false

/-- The settings fields the graph builder reads
(`src/types.ts`, `BetterGraphSettings`).  `maxSimilarLinksPerNode` and
`dynamicSimilarityPruning` are optional in the source and read through
`|| 0` / `|| false`, which the total fields here model. -/
structure BuildSettings where
  similarityThreshold : ℚ
  maxSimilarLinksPerNode : ℕ
  dynamicSimilarityPruning : Bool
  minLinkThickness : ℚ
  maxLinkThickness : ℚ
deriving DecidableEq, Repr

/-- `calculateThicknessFromSimilarity` (graph view source, lines 716-722):

```ts
const normalizedSimilarity = (similarity - this.plugin.settings.similarityThreshold) /
    (1.0 - this.plugin.settings.similarityThreshold);
return this.plugin.settings.minLinkThickness +
    (normalizedSimilarity * (this.plugin.settings.maxLinkThickness - this.plugin.settings.minLinkThickness));
```

There is no guard for `similarityThreshold == 1`. -/
def calculateThicknessFromSimilarity (s : BuildSettings) (similarity : ℚ) :
    JSNum :=
  let normalizedSimilarity :=
    jsDiv (similarity - s.similarityThreshold) (1 - s.similarityThreshold)
  jsAddNum s.minLinkThickness
    (jsMulNum normalizedSimilarity (s.maxLinkThickness - s.minLinkThickness))

/-! ## The similarity-graph builder (`createEmbeddingBasedLinks`)

Graph view source, lines 617-693.  The method's collaborators become
parameters of the embedding: the node map becomes the list of its values
in iteration order; the pre-existing manual links (read from `this.links`
to build `manualLinkPairs`) become a list of `(source, target)` pairs; the
call `this.plugin.embeddingService.calculateCosineSimilarity` becomes a
similarity function `simf`; `Math.sqrt` inside the dynamic pruning becomes
`sqrtf`.  All container iteration orders follow the source: JavaScript
`Map`s iterate in insertion order. -/

/-- A graph node as consumed by `createEmbeddingBasedLinks`: its `id` and
its optional `embedding` (nodes without one are skipped). -/
structure GraphNode where
  id : String
  embedding : Option (List ℚ)
deriving DecidableEq, Repr

/-- One entry of a per-node candidate list: `{ otherId, sim }`. -/
structure Cand where
  otherId : String
  sim : ℚ
deriving DecidableEq, Repr

/-- A similarity link as pushed on `this.links` (lines 684-690). -/
structure SimilarityLink where
  source : String
  target : String
  id : String
  similarity : ℚ
  thickness : JSNum
deriving DecidableEq, Repr

/-- The `perNodeCandidates` map: `Map<string, {otherId, sim}[]>`, an
association list in insertion order. -/
abbrev CandMap := List (String × List Cand)

/-- `perNodeCandidates.has(k)`. -/
def hasCandKey (m : CandMap) (k : String) : Bool :=
  m.any (fun e => e.1 = k)

/-- `if (!perNodeCandidates.has(k)) perNodeCandidates.set(k, []);`
(lines 645-646): a missing key is appended with an empty list. -/
def ensureCandKey (m : CandMap) (k : String) : CandMap :=
  if hasCandKey m k then m else m ++ [(k, [])]

/-- `perNodeCandidates.get(k)!.push(c)` (lines 647-648). -/
def pushCand (m : CandMap) (k : String) (c : Cand) : CandMap :=
  m.map (fun e => if e.1 = k then (e.1, e.2 ++ [c]) else e)

/-- Lines 645-648: ensure both endpoints have candidate lists, then push
the candidate to both (`{otherId: b, sim}` to `a`, `{otherId: a, sim}` to
`b`). -/
def addPairCands (m : CandMap) (a b : String) (s : ℚ) : CandMap :=
  pushCand
    (pushCand (ensureCandKey (ensureCandKey m a) b) a { otherId := b, sim := s })
    b { otherId := a, sim := s }

/-- The manual-link key set (lines 621-630): for every manual link both
`source|target` and `target|source` are inserted. -/
def manualKeySet (manualPairs : List (String × String)) : List String :=
  manualPairs.foldl
    (fun acc p => acc ++ [p.1 ++ "|" ++ p.2, p.2 ++ "|" ++ p.1]) []

/-- The inner candidate loop (lines 638-650): for each later node `b` with
an embedding, skip manually linked pairs, compute the similarity, and keep
the pair only when `similarity >= similarityThreshold`. -/
def innerLoop (s : BuildSettings) (simf : List ℚ → List ℚ → ℚ)
    (manual : List String) (a : GraphNode) (ea : List ℚ) :
    CandMap → List GraphNode → CandMap
  | m, [] => m
  | m, b :: rest =>
    let m1 :=
      match b.embedding with
      | none => m
      | some eb =>
        if (a.id ++ "|" ++ b.id) ∈ manual then m
        else
          let similarity := simf ea eb
          if similarity ≥ s.similarityThreshold then
            addPairCands m a.id b.id similarity
          else m
    innerLoop s simf manual a ea m1 rest

/-- The outer candidate loop (lines 635-651): nodes without an embedding
are skipped; each node is paired with every strictly later node. -/
def outerLoop (s : BuildSettings) (simf : List ℚ → List ℚ → ℚ)
    (manual : List String) : CandMap → List GraphNode → CandMap
  | m, [] => m
  | m, a :: rest =>
    let m1 :=
      match a.embedding with
      | none => m
      | some ea => innerLoop s simf manual a ea m rest
    outerLoop s simf manual m1 rest

/-- Stable insertion of one candidate into a list sorted descending by
similarity: the element goes after every element with similarity at least
its own, which is how the stable `Array.prototype.sort` with comparator
`(a, b) => b.sim - a.sim` orders ties. -/
def insertDesc (c : Cand) : List Cand → List Cand
  | [] => [c]
  | d :: ds => if c.sim > d.sim then c :: d :: ds else d :: insertDesc c ds

/-- `filtered.sort((a, b) => b.sim - a.sim)` (line 671): stable sort,
descending by similarity. -/
def sortDesc (l : List Cand) : List Cand :=
  l.foldl (fun acc c => insertDesc c acc) []

/-- The per-node pruning of lines 657-675, applied to one node's candidate
list: optionally raise the threshold to `mean + 0.35 * std` (population
standard deviation, via `sqrtf` = `Math.sqrt`) when dynamic pruning is on
and there are at least 4 candidates; filter, sort descending, and cap. -/
def pruneCandidates (s : BuildSettings) (sqrtf : ℚ → ℚ)
    (candidates : List Cand) : List Cand :=
  let thresholdAdj :=
    if s.dynamicSimilarityPruning ∧ candidates.length ≥ 4 then
      let sims := candidates.map (fun c => c.sim)
      let mean := sims.sum / sims.length
      let variance :=
        (sims.foldl (fun a b => a + (b - mean) * (b - mean)) 0) / sims.length
      let std := sqrtf variance
      max s.similarityThreshold (mean + 0.35 * std)
    else s.similarityThreshold
  let filtered := candidates.filter (fun c => c.sim ≥ thresholdAdj)
  let sorted := sortDesc filtered
  if s.maxSimilarLinksPerNode > 0 ∧ sorted.length > s.maxSimilarLinksPerNode
  then sorted.take s.maxSimilarLinksPerNode
  else sorted

/-- The order-independent pair key of line 680:
``a < b ? `${a}|${b}` : `${b}|${a}` ``. -/
def pairKey (a b : String) : String :=
  if a < b then a ++ "|" ++ b else b ++ "|" ++ a

/-- The emission step for one pruned candidate (lines 677-691): skip pairs
already in `addedPairs`, otherwise record the key and push the link. -/
def emitCand (s : BuildSettings) (nodeId : String)
    (acc : List String × List SimilarityLink) (c : Cand) :
    List String × List SimilarityLink :=
  let a := nodeId
  let b := c.otherId
  let key := pairKey a b
  if key ∈ acc.1 then acc
  else
    (acc.1 ++ [key],
     acc.2 ++ [{ source := a, target := b, id := a ++ "<->" ++ b,
                 similarity := c.sim,
                 thickness := calculateThicknessFromSimilarity s c.sim }])

/-- The `perNodeCandidates.forEach` body (lines 657-692): empty candidate
lists return early, the rest are pruned and emitted with deduplication
through `addedPairs`. -/
def emitNode (s : BuildSettings) (sqrtf : ℚ → ℚ)
    (acc : List String × List SimilarityLink) (e : String × List Cand) :
    List String × List SimilarityLink :=
  if e.2.length = 0 then acc
  else (pruneCandidates s sqrtf e.2).foldl (emitCand s e.1) acc

/-- `createEmbeddingBasedLinks` (graph view source, lines 617-693),
returning the list of similarity links the method pushes on
`this.links`. -/
def createEmbeddingBasedLinks (s : BuildSettings)
    (simf : List ℚ → List ℚ → ℚ) (sqrtf : ℚ → ℚ)
    (manualPairs : List (String × String)) (nodes : List GraphNode) :
    List SimilarityLink :=
  let manual := manualKeySet manualPairs
  let perNodeCandidates := outerLoop s simf manual [] nodes
  (perNodeCandidates.foldl (emitNode s sqrtf) ([], [])).2

/-! ## Cosine similarity (`calculateCosineSimilarity`)

`src/EmbeddingService.ts:320-343`.  The vectors are lists of reals;
`Math.sqrt` is `Real.sqrt`.  The source accumulates the dot product and
the two squared magnitudes in a single loop over the common index range;
with the length guard passed, that loop is `List.zipWith`. -/

/-- The loop of lines 329-333 restricted to one accumulator:
`Σ_i u[i] * v[i]`. -/
def dotProduct (u v : List ℝ) : ℝ :=
  (List.zipWith (fun a b => a * b) u v).sum

/-- `calculateCosineSimilarity` (src/EmbeddingService.ts:320-343): throws
on a length mismatch, returns `0` when either magnitude is zero, and
`dot / (|u| * |v|)` otherwise. -/
noncomputable def calculateCosineSimilarity (u v : List ℝ) :
    Except String ℝ :=
  if u.length ≠ v.length then
    Except.error "Vectors must have the same length"
  else
    let dot := dotProduct u v
    let magnitude1 := Real.sqrt (dotProduct u u)
    let magnitude2 := Real.sqrt (dotProduct v v)
    if magnitude1 = 0 ∨ magnitude2 = 0 then Except.ok 0
    else Except.ok (dot / (magnitude1 * magnitude2))

/-- A vector all of whose entries are zero. -/
def isZeroVec (u : List ℝ) : Prop := ∀ x ∈ u, x = 0

/-! ## Text normalization (`extractHeadingsAndFirstWords`)

`src/EmbeddingService.ts:345-392`.  Strings are lists of characters.  The
JavaScript regular expressions are implemented character by character with
their exact leftmost / lazy / greedy / backtracking semantics; the `\s`
class is modelled by its ASCII part (space, tab, newline, carriage return,
vertical tab, form feed), which covers every input the theorems use. -/

/-- The character class `\s`, restricted to ASCII. -/
def isWs (c : Char) : Bool :=
  c == ' ' || c == '\t' || c == '\n' || c == '\r' ||
  c == Char.ofNat 11 || c == Char.ofNat 12

/-- `String.prototype.trim()`. -/
def trimChars (l : List Char) : List Char :=
  ((l.dropWhile isWs).reverse.dropWhile isWs).reverse

/-- First index at which three consecutive copies of `ch` start, if any
(the lazy search for the closing `---` / three-backquote fence). -/
def findTriple (ch : Char) : List Char → Option ℕ
  | a :: b :: c :: rest =>
    if a == ch && b == ch && c == ch then some 0
    else (findTriple ch (b :: c :: rest)).map (· + 1)
  | _ => none

/-- Whether the list starts with three consecutive copies of `ch`. -/
def startsTriple (ch : Char) (s : List Char) : Bool :=
  match s with
  | a :: b :: c :: _ => a == ch && b == ch && c == ch
  | _ => false

/-- The optional trailing newline of the front-matter pattern (`\n?`). -/
def dropNl (l : List Char) : List Char :=
  match l with
  | '\n' :: t => t
  | t => t

/-- `content.replace(/^---[\s\S]*?---\n?/m, '')`
(src/EmbeddingService.ts:360): remove the first, leftmost match — a `---`
at a line start, a lazy gap, the next `---` anywhere, and an optional
newline.  A `---` at a line start with no later `---` does not match, and
scanning continues at the next character. -/
def frontmatterGo (atStart : Bool) : List Char → List Char
  | [] => []
  | c :: rest =>
    if atStart = true ∧ startsTriple '-' (c :: rest) = true then
      match findTriple '-' ((c :: rest).drop 3) with
      | some q => dropNl (((c :: rest).drop 3).drop (q + 3))
      | none => c :: frontmatterGo (c == '\n') rest
    else c :: frontmatterGo (c == '\n') rest

/-- The front-matter removal, started at the beginning of the content
(position 0 is a line start). -/
def removeFrontmatter (s : List Char) : List Char := frontmatterGo true s

/-- The number of leading `#` characters (`#{1,6}` with backtracking only
succeeds when the full run has length 1 to 6 and is followed by `\s`). -/
def leadHashes (s : List Char) : ℕ := (s.takeWhile (fun c => c == '#')).length

/-- Whether the heading pattern `^#{1,6}\s+` matches at the start of `s`
(the `^` anchor is handled by the caller). -/
def headingMatch (s : List Char) : Bool :=
  let n := leadHashes s
  if 1 ≤ n ∧ n ≤ 6 then
    match s.drop n with
    | d :: _ => isWs d
    | [] => false
  else false

/-- The text after the greedy `\s+` run of a heading match.  Note that
`\s` includes newlines, so the run may span line breaks — faithful to the
JavaScript behaviour of `/^#{1,6}\s+.*$/gm`. -/
def headingAfterWs (s : List Char) : List Char :=
  (s.drop (leadHashes s)).dropWhile isWs

/-- The remainder of the string after a heading match: the greedy `.*`
consumes to the end of line, and `$` is zero-width, so the terminating
newline (if any) survives. -/
def headingTail (s : List Char) : List Char :=
  (headingAfterWs s).dropWhile (fun x => x != '\n')

theorem dropWhileLenLe (p : Char → Bool) (l : List Char) :
    (l.dropWhile p).length ≤ l.length :=
  (List.dropWhile_sublist p).length_le

theorem headingMatch_one_le (s : List Char) (h : headingMatch s = true) :
    1 ≤ leadHashes s := by
  unfold headingMatch at h
  by_cases h1 : 1 ≤ leadHashes s ∧ leadHashes s ≤ 6
  · exact h1.1
  · simp [h1] at h

theorem headingTail_lt (s : List Char) (h : headingMatch s = true) :
    (headingTail s).length < s.length := by
  have h1 : 1 ≤ leadHashes s := headingMatch_one_le s h
  have h2 : s ≠ [] := by
    intro hs
    rw [hs] at h1
    simp [leadHashes] at h1
  have h3 : (headingAfterWs s).length ≤ (s.drop (leadHashes s)).length :=
    dropWhileLenLe _ _
  have h4 : (headingTail s).length ≤ (headingAfterWs s).length :=
    dropWhileLenLe _ _
  have h5 : (s.drop (leadHashes s)).length = s.length - leadHashes s :=
    List.length_drop _ _
  have h6 : 0 < s.length := List.length_pos.mpr h2
  omega

/-- `.replace(/^#{1,6}\s+.*$/gm, '')` (src/EmbeddingService.ts:364):
remove every heading match; after a match, scanning resumes at the match
end (which is never a line start, since `$` stops before the newline). -/
def headingRemovalGo (atStart : Bool) (s : List Char) : List Char :=
  match s with
  | [] => []
  | c :: rest =>
    if h : atStart = true ∧ headingMatch (c :: rest) = true then
      headingRemovalGo false (headingTail (c :: rest))
    else c :: headingRemovalGo (c == '\n') rest
termination_by s.length
decreasing_by
  · exact headingTail_lt _ h.2
  · simp

/-- The heading-line removal pass, started at a line start. -/
def headingRemoval (s : List Char) : List Char := headingRemovalGo true s

/-- The suffix at which the backtracked `\s+` of the heading-extraction
pattern hands over to `(.+)` when the string ends inside the whitespace
run: the latest position, at least one character into the run, holding a
non-newline character. -/
def lastNonNlSuffix : List Char → Option (List Char)
  | [] => none
  | c :: t =>
    match lastNonNlSuffix t with
    | some s => some s
    | none => if c != '\n' then some (c :: t) else none

/-- The `\s+` backtracking for heading extraction: the first whitespace
character stays with `\s+`, the rest is searched for the last possible
start of `(.+)`. -/
def headingBacktrack (s : List Char) : Option (List Char) :=
  match s.drop (leadHashes s) with
  | [] => none
  | _ :: t => lastNonNlSuffix t

theorem lastNonNlSuffix_length (l s : List Char)
    (h : lastNonNlSuffix l = some s) : s.length ≤ l.length := by
  induction l with
  | nil => simp [lastNonNlSuffix] at h
  | cons c t ih =>
    unfold lastNonNlSuffix at h
    cases hr : lastNonNlSuffix t with
    | some s2 =>
      rw [hr] at h
      have := ih (by rw [hr]; exact congrArg some (by injection h))
      simp at h
      subst h
      exact Nat.le_succ_of_le this
    | none =>
      rw [hr] at h
      by_cases hc : c != '\n'
      · simp [hc] at h
        subst h
        exact Nat.le_refl _
      · simp [hc] at h

theorem headingBacktrack_lt (s suf : List Char)
    (h : headingBacktrack s = some suf) (hm : headingMatch s = true) :
    suf.length < s.length := by
  have h1 : 1 ≤ leadHashes s := headingMatch_one_le s hm
  unfold headingBacktrack at h
  cases hd : s.drop (leadHashes s) with
  | nil => rw [hd] at h; exact absurd h (by simp)
  | cons c t =>
    rw [hd] at h
    have h2 := lastNonNlSuffix_length t suf h
    have h3 : (s.drop (leadHashes s)).length = s.length - leadHashes s :=
      List.length_drop _ _
    rw [hd] at h3
    simp at h3
    omega

/-- `/^#{1,6}\s+(.+)$/gm` matched repeatedly with `match[1].trim()`
collected (src/EmbeddingService.ts:351-357).  When the string ends inside
the whitespace run, `\s+` backtracks and `(.+)` captures trailing
whitespace, which trims to the empty heading. -/
def headingExtractGo (atStart : Bool) (s : List Char) : List (List Char) :=
  match s with
  | [] => []
  | c :: rest =>
    if h : atStart = true ∧ headingMatch (c :: rest) = true then
      if (headingAfterWs (c :: rest)).isEmpty then
        match hb : headingBacktrack (c :: rest) with
        | some suf =>
          trimChars (suf.takeWhile (fun x => x != '\n')) ::
            headingExtractGo false (suf.dropWhile (fun x => x != '\n'))
        | none => headingExtractGo (c == '\n') rest
      else
        trimChars ((headingAfterWs (c :: rest)).takeWhile (fun x => x != '\n')) ::
          headingExtractGo false (headingTail (c :: rest))
    else headingExtractGo (c == '\n') rest
termination_by s.length
decreasing_by
  · have h1 := headingBacktrack_lt _ _ hb h.2
    have h2 : ((suf.dropWhile (fun x => x != '\n'))).length ≤ suf.length :=
      dropWhileLenLe _ _
    omega
  · simp
  · exact headingTail_lt _ h.2
  · simp

/-- The heading extraction, started at a line start. -/
def extractHeadings (s : List Char) : List (List Char) :=
  headingExtractGo true s

/-- The backquote character, avoiding a literal backtick in the source. -/
def backquote : Char := Char.ofNat 96

/-- `.replace(/(three backquotes)[\s\S]*?(three backquotes)/g, '')`
(src/EmbeddingService.ts:365): repeatedly remove the leftmost, shortest
fenced block; an unclosed fence does not match. -/
def codeGo (s : List Char) : List Char :=
  match s with
  | [] => []
  | c :: rest =>
    if startsTriple backquote (c :: rest) = true then
      match hf : findTriple backquote ((c :: rest).drop 3) with
      | some q => codeGo ((((c :: rest).drop 3)).drop (q + 3))
      | none => c :: codeGo rest
    else c :: codeGo rest
termination_by s.length
decreasing_by
  · simp
    omega
  · simp
  · simp

/-- The fenced-code-block removal pass. -/
def codeRemoval (s : List Char) : List Char := codeGo s

/-- The lazy `.*?\)` tail of the link pattern: the first `)` on the
current line, if any. -/
def findClose : List Char → Option (List Char)
  | [] => none
  | c :: rest =>
    if c == ')' then some rest
    else if c == '\n' then none
    else findClose rest

/-- The body of the link pattern `\[.*?\]\(.*?\)` after the opening `[`:
the lazy `.*?` tries each `](` on the current line in order, and for each
one the closing `.*?\)` is searched; on failure the engine backtracks to
the next `](`. -/
def tryLink : List Char → Option (List Char)
  | [] => none
  | c :: rest =>
    if c == '\n' then none
    else if c == ']' then
      match rest with
      | '(' :: rest2 =>
        (match findClose rest2 with
         | some rem => some rem
         | none => tryLink rest)
      | _ => tryLink rest
    else tryLink rest

theorem findClose_length (l r : List Char) (h : findClose l = some r) :
    r.length < l.length := by
  induction l with
  | nil => simp [findClose] at h
  | cons c rest ih =>
    unfold findClose at h
    by_cases h1 : c == ')'
    · simp [h1] at h
      subst h
      simp
    · by_cases h2 : c == '\n'
      · simp [h1, h2] at h
      · simp [h1, h2] at h
        exact Nat.lt_succ_of_lt (ih h)

theorem tryLink_length (l r : List Char) (h : tryLink l = some r) :
    r.length < l.length := by
  induction l with
  | nil => simp [tryLink] at h
  | cons c rest ih =>
    unfold tryLink at h
    by_cases h1 : c == '\n'
    · simp [h1] at h
    · by_cases h2 : c == ']'
      · simp only [h1, h2, Bool.false_eq_true, if_false, if_true] at h
        split at h
        · split at h
          · next rest2 _ rem hf =>
            injection h with h
            subst h
            have := findClose_length rest2 rem hf
            simp only [List.length_cons]
            omega
          · exact Nat.lt_succ_of_lt (ih h)
        · exact Nat.lt_succ_of_lt (ih h)
      · simp only [h1, h2, Bool.false_eq_true, if_false] at h
        exact Nat.lt_succ_of_lt (ih h)

/-- `.replace(/\[.*?\]\(.*?\)/g, '')` (src/EmbeddingService.ts:366):
repeatedly remove the leftmost link-syntax match; scanning resumes after
the closing parenthesis. -/
def linkGo (s : List Char) : List Char :=
  match s with
  | [] => []
  | c :: rest =>
    if c == '[' then
      match ht : tryLink rest with
      | some rem => linkGo rem
      | none => c :: linkGo rest
    else c :: linkGo rest
termination_by s.length
decreasing_by
  · have := tryLink_length rest rem ht
    simp
    omega
  · simp
  · simp

/-- The markdown-link removal pass. -/
def linkRemoval (s : List Char) : List Char := linkGo s

/-- `bodyText.split(/\s+/).filter(word => word.length > 0)`
(src/EmbeddingService.ts:370): the maximal nonempty runs of
non-whitespace characters, collected left to right (`cur` accumulates the
current run in reverse). -/
def wordsGo : List Char → List Char → List (List Char)
  | [], cur => if cur.isEmpty then [] else [cur.reverse]
  | c :: rest, cur =>
    if isWs c then
      if cur.isEmpty then wordsGo rest []
      else cur.reverse :: wordsGo rest []
    else wordsGo rest (c :: cur)

/-- The whitespace tokenization of the body text. -/
def wordsOf (s : List Char) : List (List Char) := wordsGo s []

/-- The `STOP` set of src/EmbeddingService.ts:372-374, verbatim. -/
def STOP : List String :=
  ["the", "a", "an", "and", "or", "of", "in", "to", "for", "on", "with",
   "by", "at", "from", "this", "that", "is", "are", "be", "it", "as",
   "was", "were", "will", "can", "could", "should", "would", "have",
   "has", "had", "about", "note", "daily", "template", "summary", "tags"]

/-- `STOP.has(w.toLowerCase())` (src/EmbeddingService.ts:375), with
`toLowerCase` as the character-wise ASCII lowering `Char.toLower`. -/
def isStop (w : List Char) : Bool :=
  STOP.contains (String.mk (w.map Char.toLower))

/-- `selectedWords.join(' ')` (src/EmbeddingService.ts:381). -/
def joinSp : List (List Char) → List Char
  | [] => []
  | [w] => w
  | w :: ws => w ++ ' ' :: joinSp ws

/-- `headings.join(' | ')` (src/EmbeddingService.ts:388). -/
def joinBar : List (List Char) → List Char
  | [] => []
  | [w] => w
  | w :: ws => w ++ ' ' :: '|' :: ' ' :: joinBar ws

/-- The settings `extractHeadingsAndFirstWords` reads: the `wordLimit`
parameter (default `100`) and the plugin settings fetched on lines
346-348, with their JavaScript defaulting (`|| 0`, `?? true`) already
applied. -/
structure ExtractSettings where
  wordLimit : ℕ
  embeddingWordSkip : ℤ
  excludeHeadingsFromEmbedding : Bool
deriving DecidableEq, Repr

/-- `EmbeddingService.extractHeadingsAndFirstWords`
(src/EmbeddingService.ts:345-392): extract headings, strip front-matter,
remove heading lines / fenced code blocks / markdown links, tokenize,
drop stop words, apply the skip / limit window, and combine with the
heading list unless headings are excluded.

`Math.max(0, wordSkip)` is `Int.toNat`; the slice
`filteredWords.slice(startIdx, endIdx)` is `take endIdx` then
`drop startIdx`; the truthiness test `headingText ? ... : firstWords`
is emptiness of the joined heading text. -/
def extractHeadingsAndFirstWords (cfg : ExtractSettings)
    (content : List Char) : List Char :=
  let headings := extractHeadings content
  let contentWithoutFrontmatter := removeFrontmatter content
  let bodyText :=
    trimChars (linkRemoval (codeRemoval (headingRemoval
      contentWithoutFrontmatter)))
  let words := wordsOf bodyText
  let filteredWords := words.filter (fun w => !isStop w)
  let startIdx := cfg.embeddingWordSkip.toNat
  let endIdx := min filteredWords.length (startIdx + cfg.wordLimit)
  let selectedWords := (filteredWords.take endIdx).drop startIdx
  let firstWords := joinSp selectedWords
  let combinedText :=
    if cfg.excludeHeadingsFromEmbedding then firstWords
    else
      let headingText := joinBar headings
      if headingText.isEmpty then firstWords
      else headingText ++ '\n' :: '\n' :: firstWords
  trimChars combinedText

/-! ## Theorems -/

/-- The cache of the spec scenario: document `A` with `lastModified = 10`
and `embeddingGenerated = 20`; document `B` has no record. -/
def scenarioCache : Files :=
  [("A", { path := "A", lastModified := 10, embeddingGenerated := 20,
           status := Status.upToDate })]

/-- `getFileStatus` never returns `'processing'`: the stored status field
is not consulted, only the timestamp comparison decides. -/
theorem getFileStatus_ne_processing (files : Files) (path : String)
    (mtime : ℤ) : getFileStatus files path mtime ≠ Status.processing := by
  unfold getFileStatus
  cases lookupKey files path with
  | none => simp
  | some cached =>
    by_cases h : mtime > cached.embeddingGenerated <;> simp [h]

/-- C5: `getFileStatus` is a pure function of the cached record and the
caller-supplied modification time: it returns `'new'` when no record
exists, `'modified'` when the modification time is strictly greater than
the record's `embeddingGenerated`, and `'up-to-date'` otherwise; in the
spec scenario, document `A` (`lastModified = 10`,
`embeddingGenerated = 20`) is `'up-to-date'` and the recordless `B` is
`'new'`. -/
theorem getFileStatus_spec (files : Files) (path : String) (mtime : ℤ) :
    (lookupKey files path = none →
      getFileStatus files path mtime = Status.new) ∧
    (∀ r, lookupKey files path = some r → mtime > r.embeddingGenerated →
      getFileStatus files path mtime = Status.modified) ∧
    (∀ r, lookupKey files path = some r → mtime ≤ r.embeddingGenerated →
      getFileStatus files path mtime = Status.upToDate) ∧
    getFileStatus scenarioCache "A" 10 = Status.upToDate ∧
    getFileStatus scenarioCache "B" 10 = Status.new := by
  refine ⟨?_, ?_, ?_, by decide, by decide⟩
  · intro h
    simp [getFileStatus, h]
  · intro r hr hgt
    simp [getFileStatus, hr, hgt]
  · intro r hr hle
    simp [getFileStatus, hr, not_lt.mpr hle]

/-- Witness for C5: the three hypothetical branches evaluated at concrete
inputs. -/
theorem getFileStatus_spec_witness :
    getFileStatus scenarioCache "A" 25 = Status.modified ∧
    getFileStatus scenarioCache "A" 15 = Status.upToDate ∧
    getFileStatus scenarioCache "C" 0 = Status.new :=
  ⟨(getFileStatus_spec scenarioCache "A" 25).2.1
      ⟨"A", 10, 20, Status.upToDate⟩ (by decide) (by decide),
   (getFileStatus_spec scenarioCache "A" 15).2.2.1
      ⟨"A", 10, 20, Status.upToDate⟩ (by decide) (by decide),
   (getFileStatus_spec scenarioCache "C" 0).1 (by decide)⟩

/-- A cache whose only record is stuck at `'processing'`, for the C10
instance. -/
def processingCache : Files :=
  [("X", { path := "X", lastModified := 3, embeddingGenerated := 7,
           status := Status.processing })]

/-- C10: `getFileStatus` returns only `'new'`, `'modified'` or
`'up-to-date'`, never `'processing'`, and consequently
`getEmbeddingStats` always reports a `processing` count of `0` — even on
a cache whose records carry status `'processing'`. -/
theorem getEmbeddingStats_processing_zero :
    (∀ (files : Files) (path : String) (mtime : ℤ),
      getFileStatus files path mtime ≠ Status.processing) ∧
    (∀ (files : Files) (docs : List (String × ℤ)),
      (getEmbeddingStats files docs).processing = 0) ∧
    (getEmbeddingStats processingCache [("X", 3)]).processing = 0 := by
  refine ⟨getFileStatus_ne_processing, ?_, by decide⟩
  intro files docs
  have key : ∀ (ds : List (String × ℤ)) (st : EmbeddingStats),
      (ds.foldl
        (fun stats d =>
          match getFileStatus files d.1 d.2 with
          | Status.upToDate => { stats with upToDate := stats.upToDate + 1 }
          | Status.modified => { stats with modified := stats.modified + 1 }
          | Status.new => { stats with new := stats.new + 1 }
          | Status.processing =>
            { stats with processing := stats.processing + 1 })
        st).processing = st.processing := by
    intro ds
    induction ds with
    | nil => intro st; rfl
    | cons d rest ih =>
      intro st
      rw [List.foldl_cons, ih]
      cases hst : getFileStatus files d.1 d.2 with
      | upToDate => simp [hst]
      | modified => simp [hst]
      | new => simp [hst]
      | processing => exact absurd hst (getFileStatus_ne_processing _ _ _)
  exact key docs _

/-- Settings with the similarity threshold at exactly `1`, for the C7
counterexample. -/
def thresholdOneSettings : BuildSettings :=
  { similarityThreshold := 1, maxSimilarLinksPerNode := 0,
    dynamicSimilarityPruning := false, minLinkThickness := 1/2,
    maxLinkThickness := 8 }

/-- C7 counterexample: with `minLinkThickness = 1/2 ≤ 8 = maxLinkThickness`
and the threshold exactly `1`, a similarity of `9/10` makes the source
divide by zero and produce `-Infinity`, not `minLinkThickness`. -/
theorem thickness_at_threshold_one_not_min :
    thresholdOneSettings.minLinkThickness ≤
      thresholdOneSettings.maxLinkThickness ∧
    calculateThicknessFromSimilarity thresholdOneSettings (9/10) =
      JSNum.negInf ∧
    calculateThicknessFromSimilarity thresholdOneSettings (9/10) ≠
      JSNum.num thresholdOneSettings.minLinkThickness := by
  have h2 : calculateThicknessFromSimilarity thresholdOneSettings (9/10) =
      JSNum.negInf := by
    simp [calculateThicknessFromSimilarity, thresholdOneSettings, jsDiv,
      jsMulNum, jsAddNum] <;> norm_num
  exact ⟨by norm_num [thresholdOneSettings], h2, by rw [h2]; simp⟩

/-- C7 (amended): for settings with `minLinkThickness ≤ maxLinkThickness`,
the derived thickness equals
`min + ((s - t) / (1 - t)) * (max - min)` whenever the threshold is not
`1`; when the threshold is exactly `1` the code divides by zero and the
result is a non-finite IEEE value (`NaN` or `±Infinity`), not
`minLinkThickness`. -/
theorem calculateThickness_spec (s : BuildSettings) (similarity : ℚ)
    (hminmax : s.minLinkThickness ≤ s.maxLinkThickness) :
    (s.similarityThreshold ≠ 1 →
      calculateThicknessFromSimilarity s similarity =
        JSNum.num (s.minLinkThickness +
          ((similarity - s.similarityThreshold) /
              (1 - s.similarityThreshold)) *
            (s.maxLinkThickness - s.minLinkThickness))) ∧
    (s.similarityThreshold = 1 →
      (calculateThicknessFromSimilarity s similarity).isFinite = false) := by
  clear hminmax
  constructor
  · intro h
    have hne : 1 - s.similarityThreshold ≠ 0 := by
      intro hz
      exact h (by linarith [sub_eq_zero.mp hz])
    simp [calculateThicknessFromSimilarity, jsDiv, hne, jsMulNum, jsAddNum]
  · intro h
    simp only [calculateThicknessFromSimilarity, h, sub_self, jsDiv]
    rcases lt_trichotomy (similarity - 1) 0 with hlt | heq | hgt
    · have h1 : ¬ (similarity - 1 = 0) := by linarith
      have h2 : ¬ (similarity - 1 > 0) := by linarith
      simp only [if_pos rfl, if_neg h1, if_neg h2]
      rcases lt_trichotomy (s.maxLinkThickness - s.minLinkThickness) 0
        with hm | hm | hm
      · simp [jsMulNum, jsAddNum, JSNum.isFinite, hm, not_lt.mpr hm.le,
          ne_of_lt hm]
      · simp [jsMulNum, jsAddNum, JSNum.isFinite, hm]
      · simp [jsMulNum, jsAddNum, JSNum.isFinite, hm, ne_of_gt hm]
    · simp [heq, jsMulNum, jsAddNum, JSNum.isFinite]
    · have h1 : ¬ (similarity - 1 = 0) := by linarith
      simp only [if_pos rfl, if_neg h1, if_pos hgt]
      rcases lt_trichotomy (s.maxLinkThickness - s.minLinkThickness) 0
        with hm | hm | hm
      · simp [jsMulNum, jsAddNum, JSNum.isFinite, hm, not_lt.mpr hm.le,
          ne_of_lt hm]
      · simp [jsMulNum, jsAddNum, JSNum.isFinite, hm]
      · simp [jsMulNum, jsAddNum, JSNum.isFinite, hm, ne_of_gt hm]

/-- Example settings for the C7 witness: threshold `1/2`. -/
def exampleThickSettings : BuildSettings :=
  { similarityThreshold := 1/2, maxSimilarLinksPerNode := 0,
    dynamicSimilarityPruning := false, minLinkThickness := 1/2,
    maxLinkThickness := 8 }

/-- Witness for C7: the formula branch evaluated at threshold `1/2` and
similarity `3/4`, and the non-finite branch at threshold `1`. -/
theorem calculateThickness_spec_witness :
    calculateThicknessFromSimilarity exampleThickSettings (3/4) =
      JSNum.num (exampleThickSettings.minLinkThickness +
        ((3/4 - exampleThickSettings.similarityThreshold) /
            (1 - exampleThickSettings.similarityThreshold)) *
          (exampleThickSettings.maxLinkThickness -
            exampleThickSettings.minLinkThickness)) ∧
    (calculateThicknessFromSimilarity thresholdOneSettings
      (9/10)).isFinite = false :=
  ⟨(calculateThickness_spec exampleThickSettings (3/4)
      (by norm_num [exampleThickSettings])).1
      (by norm_num [exampleThickSettings]),
   (calculateThickness_spec thresholdOneSettings (9/10)
      (by norm_num [thresholdOneSettings])).2 rfl⟩

theorem dotProduct_self_cons (a : ℝ) (l : List ℝ) :
    dotProduct (a :: l) (a :: l) = a * a + dotProduct l l := by
  simp [dotProduct]

theorem dotProduct_self_nonneg (u : List ℝ) : 0 ≤ dotProduct u u := by
  induction u with
  | nil => simp [dotProduct]
  | cons a l ih =>
    rw [dotProduct_self_cons]
    exact add_nonneg (mul_self_nonneg a) ih

theorem dotProduct_self_eq_zero (u : List ℝ) :
    dotProduct u u = 0 ↔ isZeroVec u := by
  induction u with
  | nil => simp [dotProduct, isZeroVec]
  | cons a l ih =>
    rw [dotProduct_self_cons]
    constructor
    · intro h
      have h1 : a * a = 0 ∧ dotProduct l l = 0 := by
        constructor <;>
          nlinarith [mul_self_nonneg a, dotProduct_self_nonneg l]
      have ha : a = 0 := by nlinarith [h1.1]
      intro x hx
      rcases List.mem_cons.mp hx with h2 | h2
      · rw [h2]; exact ha
      · exact ih.mp h1.2 x h2
    · intro h
      have ha : a = 0 := h a (List.mem_cons_self a l)
      have hl : isZeroVec l := fun x hx => h x (List.mem_cons_of_mem a hx)
      rw [ha, ih.mpr hl]
      ring

/-- C4: `calculateCosineSimilarity` throws a distinguishable error exactly
when the lengths differ; for equal lengths it returns exactly `0` when
either argument is the zero vector (magnitude `0`), otherwise
`dot / (|u| * |v|)`; and `cosine(v, v) = 1` for every non-zero vector. -/
theorem calculateCosineSimilarity_spec (u v : List ℝ) :
    ((∃ e, calculateCosineSimilarity u v = Except.error e) ↔
      u.length ≠ v.length) ∧
    (u.length = v.length → (isZeroVec u ∨ isZeroVec v) →
      calculateCosineSimilarity u v = Except.ok 0) ∧
    (u.length = v.length → Real.sqrt (dotProduct u u) ≠ 0 →
      Real.sqrt (dotProduct v v) ≠ 0 →
      calculateCosineSimilarity u v =
        Except.ok (dotProduct u v /
          (Real.sqrt (dotProduct u u) * Real.sqrt (dotProduct v v)))) ∧
    (¬ isZeroVec u → calculateCosineSimilarity u u = Except.ok 1) := by
  refine ⟨?_, ?_, ?_, ?_⟩
  · constructor
    · rintro ⟨e, he⟩ hlen
      rw [calculateCosineSimilarity, if_neg (by simp [hlen])] at he
      dsimp only at he
      split at he <;> simp at he
    · intro hlen
      exact ⟨"Vectors must have the same length",
        by rw [calculateCosineSimilarity, if_pos hlen]⟩
  · intro hlen hz
    have hmag : Real.sqrt (dotProduct u u) = 0 ∨
        Real.sqrt (dotProduct v v) = 0 := by
      rcases hz with hz | hz
      · exact Or.inl (by rw [(dotProduct_self_eq_zero u).mpr hz,
          Real.sqrt_zero])
      · exact Or.inr (by rw [(dotProduct_self_eq_zero v).mpr hz,
          Real.sqrt_zero])
    simp only [calculateCosineSimilarity, if_neg (by simp [hlen] : ¬ u.length ≠ v.length)]
    rw [if_pos hmag]
  · intro hlen h1 h2
    simp only [calculateCosineSimilarity, if_neg (by simp [hlen] : ¬ u.length ≠ v.length)]
    rw [if_neg (by push_neg; exact ⟨h1, h2⟩)]
  · intro hnz
    have hpos : dotProduct u u ≠ 0 := fun h =>
      hnz ((dotProduct_self_eq_zero u).mp h)
    have hsq : Real.sqrt (dotProduct u u) ≠ 0 := by
      rw [ne_eq, Real.sqrt_eq_zero (dotProduct_self_nonneg u)]
      exact hpos
    simp only [calculateCosineSimilarity, if_neg (by simp : ¬ u.length ≠ u.length)]
    rw [if_neg (by push_neg; exact ⟨hsq, hsq⟩),
      Real.mul_self_sqrt (dotProduct_self_nonneg u),
      div_self hpos]

/-- Witness for C4: the three reachable branches at concrete vectors —
`cosine([1],[1]) = 1`, `cosine([0],[5]) = 0`, and a length mismatch
throws. -/
theorem calculateCosineSimilarity_spec_witness :
    calculateCosineSimilarity [(1 : ℝ)] [(1 : ℝ)] = Except.ok 1 ∧
    calculateCosineSimilarity [(0 : ℝ)] [(5 : ℝ)] = Except.ok 0 ∧
    (∃ e, calculateCosineSimilarity [(1 : ℝ)] [(1 : ℝ), 0] =
      Except.error e) :=
  ⟨(calculateCosineSimilarity_spec [(1 : ℝ)] [(1 : ℝ)]).2.2.2
      (by simp [isZeroVec]),
   (calculateCosineSimilarity_spec [(0 : ℝ)] [(5 : ℝ)]).2.1 rfl
      (Or.inl (by simp [isZeroVec])),
   (calculateCosineSimilarity_spec [(1 : ℝ)] [(1 : ℝ), 0]).1.mpr
      (by simp)⟩

/-- Population mean, as the spec words it. -/
def popMean (l : List ℚ) : ℚ := l.sum / l.length

/-- Population variance (division by `n`, not `n - 1`), as the spec words
it. -/
def popVariance (l : List ℚ) : ℚ :=
  (l.map (fun x => (x - popMean l) * (x - popMean l))).sum / l.length

/-- The per-node pruning as the spec describes it: the effective
threshold is `max(threshold, mean + 0.35 * std)` when dynamic pruning is
enabled and the node has at least 4 candidates, and the configured
threshold otherwise; candidates are filtered to
`similarity >= effectiveThreshold`, sorted descending, and truncated to
the max-links cap, a cap of `0` meaning no truncation. -/
def pruneCandidatesSpec (s : BuildSettings) (sqrtf : ℚ → ℚ)
    (candidates : List Cand) : List Cand :=
  let sims := candidates.map (fun c => c.sim)
  let effectiveThreshold :=
    if s.dynamicSimilarityPruning ∧ candidates.length ≥ 4 then
      max s.similarityThreshold (popMean sims + 0.35 * sqrtf (popVariance sims))
    else s.similarityThreshold
  let kept := sortDesc (candidates.filter (fun c => c.sim ≥ effectiveThreshold))
  if s.maxSimilarLinksPerNode = 0 then kept
  else kept.take s.maxSimilarLinksPerNode

theorem foldl_sq_eq_map_sum (l : List ℚ) (m : ℚ) :
    l.foldl (fun a b => a + (b - m) * (b - m)) 0 =
      (l.map (fun x => (x - m) * (x - m))).sum := by
  suffices h : ∀ init : ℚ, l.foldl (fun a b => a + (b - m) * (b - m)) init =
      init + (l.map (fun x => (x - m) * (x - m))).sum by
    rw [h 0, zero_add]
  induction l with
  | nil => intro init; simp
  | cons x rest ih =>
    intro init
    simp only [List.foldl_cons, List.map_cons, List.sum_cons, ih]
    ring

theorem capTake (cap : ℕ) (L : List Cand) :
    (if cap > 0 ∧ L.length > cap then L.take cap else L) =
      (if cap = 0 then L else L.take cap) := by
  by_cases hcap : cap = 0
  · simp [hcap]
  · have hpos : cap > 0 := Nat.pos_of_ne_zero hcap
    by_cases hgt : L.length > cap
    · simp [hpos, hgt, hcap]
    · simp only [hgt, and_false, if_false, if_neg hcap]
      rw [List.take_of_length_le (by omega : L.length ≤ cap)]

/-- C3: the per-node pruning of the source coincides with the spec's
description: with dynamic pruning on and at least 4 candidates the
effective threshold is `max(threshold, mean + 0.35 * population std)` of
the node's candidate similarities, otherwise it is the configured
threshold; candidates are filtered by it, sorted descending by
similarity, and truncated to the max-links-per-node cap, a cap of `0`
meaning no truncation. -/
theorem pruneCandidates_eq_spec (s : BuildSettings) (sqrtf : ℚ → ℚ)
    (candidates : List Cand) :
    pruneCandidates s sqrtf candidates =
      pruneCandidatesSpec s sqrtf candidates := by
  simp only [pruneCandidates, pruneCandidatesSpec, popMean, popVariance,
    foldl_sq_eq_map_sum]
  exact capTake _ _

/-- All candidate similarities in the map are at least `t`. -/
def CandGood (t : ℚ) (m : CandMap) : Prop :=
  ∀ e ∈ m, ∀ c ∈ e.2, c.sim ≥ t

theorem candGood_ensure {t : ℚ} {m : CandMap} (h : CandGood t m)
    (k : String) : CandGood t (ensureCandKey m k) := by
  unfold ensureCandKey
  split
  · exact h
  · intro e he c hc
    rcases List.mem_append.mp he with h1 | h1
    · exact h e h1 c hc
    · rcases List.mem_singleton.mp h1 with rfl
      simp at hc
theorem candGood_push {t : ℚ} {m : CandMap} (h : CandGood t m)
    (k : String) {c : Cand} (hc : c.sim ≥ t) :
    CandGood t (pushCand m k c) := by
  intro e he c2 hc2
  rcases List.mem_map.mp he with ⟨e0, he0, hee⟩
  by_cases hk : e0.1 = k
  · rw [if_pos hk] at hee
    subst hee
    simp only at hc2
    rcases List.mem_append.mp hc2 with h1 | h1
    · exact h e0 he0 c2 h1
    · rcases List.mem_singleton.mp h1 with rfl
      exact hc
  · rw [if_neg hk] at hee
    subst hee
    exact h e0 he0 c2 hc2

theorem candGood_addPair {t : ℚ} {m : CandMap} (h : CandGood t m)
    (a b : String) {sim : ℚ} (hs : sim ≥ t) :
    CandGood t (addPairCands m a b sim) := by
  unfold addPairCands
  exact candGood_push
    (candGood_push (candGood_ensure (candGood_ensure h a) b) a hs) b hs

theorem candGood_inner {s : BuildSettings} {simf : List ℚ → List ℚ → ℚ}
    {manual : List String} {a : GraphNode} {ea : List ℚ}
    {m : CandMap} (h : CandGood s.similarityThreshold m) :
    ∀ rest : List GraphNode,
      CandGood s.similarityThreshold (innerLoop s simf manual a ea m rest) := by
  intro rest
  induction rest generalizing m with
  | nil => exact h
  | cons b brest ih =>
    simp only [innerLoop]
    apply ih
    cases hb : b.embedding with
    | none => exact h
    | some eb =>
      simp only
      split
      · exact h
      · split
        · next hsim => exact candGood_addPair h _ _ hsim
        · exact h

theorem candGood_outer {s : BuildSettings} {simf : List ℚ → List ℚ → ℚ}
    {manual : List String} {m : CandMap}
    (h : CandGood s.similarityThreshold m) :
    ∀ nodes : List GraphNode,
      CandGood s.similarityThreshold (outerLoop s simf manual m nodes) := by
  intro nodes
  induction nodes generalizing m with
  | nil => exact h
  | cons a rest ih =>
    simp only [outerLoop]
    apply ih
    cases ha : a.embedding with
    | none => exact h
    | some ea => exact candGood_inner h rest

theorem mem_insertDesc {c x : Cand} {l : List Cand}
    (h : x ∈ insertDesc c l) : x = c ∨ x ∈ l := by
  induction l with
  | nil => simpa [insertDesc] using h
  | cons d ds ih =>
    unfold insertDesc at h
    split at h
    · rcases List.mem_cons.mp h with h1 | h1
      · exact Or.inl h1
      · exact Or.inr h1
    · rcases List.mem_cons.mp h with h1 | h1
      · exact Or.inr (by rw [h1]; exact List.mem_cons_self d ds)
      · rcases ih h1 with h2 | h2
        · exact Or.inl h2
        · exact Or.inr (List.mem_cons_of_mem d h2)

theorem mem_sortDesc {x : Cand} {l : List Cand} (h : x ∈ sortDesc l) :
    x ∈ l := by
  suffices key : ∀ (ll : List Cand) (acc : List Cand),
      x ∈ ll.foldl (fun a c => insertDesc c a) acc → x ∈ acc ∨ x ∈ ll by
    rcases key l [] h with h1 | h1
    · simp at h1
    · exact h1
  intro ll
  induction ll with
  | nil => intro acc h1; exact Or.inl h1
  | cons c cs ih =>
    intro acc h1
    rcases ih (insertDesc c acc) h1 with h2 | h2
    · rcases mem_insertDesc h2 with h3 | h3
      · exact Or.inr (by rw [h3]; exact List.mem_cons_self c cs)
      · exact Or.inl h3
    · exact Or.inr (List.mem_cons_of_mem c h2)

theorem mem_if_take {x : Cand} (cond : Prop) [Decidable cond] (n : ℕ)
    (L : List Cand) (h : x ∈ (if cond then L.take n else L)) : x ∈ L := by
  split at h
  · exact List.take_subset n L h
  · exact h

theorem mem_pruneCandidates {s : BuildSettings} {sqrtf : ℚ → ℚ}
    {candidates : List Cand} {x : Cand}
    (h : x ∈ pruneCandidates s sqrtf candidates) : x ∈ candidates := by
  unfold pruneCandidates at h
  dsimp only at h
  exact List.mem_of_mem_filter (mem_sortDesc (mem_if_take _ _ _ h))

theorem emitCand_links_sub {s : BuildSettings} {nodeId : String}
    {acc : List String × List SimilarityLink} {c : Cand} {l : SimilarityLink}
    (h : l ∈ (emitCand s nodeId acc c).2) :
    l ∈ acc.2 ∨ l.similarity = c.sim := by
  unfold emitCand at h
  dsimp only at h
  by_cases hk : pairKey nodeId c.otherId ∈ acc.1
  · rw [if_pos hk] at h
    exact Or.inl h
  · rw [if_neg hk] at h
    dsimp only at h
    rcases List.mem_append.mp h with h1 | h1
    · exact Or.inl h1
    · rcases List.mem_singleton.mp h1 with rfl
      exact Or.inr rfl

theorem emitFold_good {s : BuildSettings} {nodeId : String} {t : ℚ}
    (pruned : List Cand) (hp : ∀ c ∈ pruned, c.sim ≥ t) :
    ∀ acc : List String × List SimilarityLink,
      (∀ l ∈ acc.2, l.similarity ≥ t) →
      ∀ l ∈ (pruned.foldl (emitCand s nodeId) acc).2, l.similarity ≥ t := by
  induction pruned with
  | nil => intro acc hacc l hl; exact hacc l hl
  | cons c cs ih =>
    intro acc hacc l hl
    apply ih (fun c2 hc2 => hp c2 (List.mem_cons_of_mem c hc2))
      (emitCand s nodeId acc c) _ l hl
    intro l2 hl2
    rcases emitCand_links_sub hl2 with h1 | h1
    · exact hacc l2 h1
    · rw [h1]
      exact hp c (List.mem_cons_self c cs)

theorem emitNodes_good {s : BuildSettings} {sqrtf : ℚ → ℚ}
    (m : CandMap) (hm : CandGood s.similarityThreshold m) :
    ∀ acc : List String × List SimilarityLink,
      (∀ l ∈ acc.2, l.similarity ≥ s.similarityThreshold) →
      ∀ l ∈ (m.foldl (emitNode s sqrtf) acc).2,
        l.similarity ≥ s.similarityThreshold := by
  induction m with
  | nil => intro acc hacc l hl; exact hacc l hl
  | cons e es ih =>
    intro acc hacc l hl
    apply ih (fun e2 he2 => hm e2 (List.mem_cons_of_mem e he2))
      (emitNode s sqrtf acc e) _ l hl
    intro l2 hl2
    unfold emitNode at hl2
    split at hl2
    · exact hacc l2 hl2
    · exact emitFold_good _
        (fun c hc => hm e (List.mem_cons_self e es) c (mem_pruneCandidates hc))
        acc hacc l2 hl2

/-- C1: every similarity link emitted by `createEmbeddingBasedLinks` has
similarity at least the configured threshold — a pair whose similarity is
below the threshold is never added to the candidate lists and never
appears in the output. -/
theorem createEmbeddingBasedLinks_threshold (s : BuildSettings)
    (simf : List ℚ → List ℚ → ℚ) (sqrtf : ℚ → ℚ)
    (manualPairs : List (String × String)) (nodes : List GraphNode)
    (l : SimilarityLink)
    (hl : l ∈ createEmbeddingBasedLinks s simf sqrtf manualPairs nodes) :
    l.similarity ≥ s.similarityThreshold := by
  unfold createEmbeddingBasedLinks at hl
  exact emitNodes_good _
    (candGood_outer (fun e he => absurd he (List.not_mem_nil e)) nodes)
    ([], []) (fun l2 hl2 => absurd hl2 (List.not_mem_nil l2)) l hl

/-- Witness settings: threshold `1`, no cap, no dynamic pruning.  The
values are integral rationals so that the whole build evaluates inside
the kernel. -/
def witnessSettings : BuildSettings :=
  { similarityThreshold := 1, maxSimilarLinksPerNode := 0,
    dynamicSimilarityPruning := false, minLinkThickness := 0,
    maxLinkThickness := 1 }

/-- A concrete similarity function for witnesses: the dot product (equal
to the cosine on unit vectors). -/
def dotSim (u v : List ℚ) : ℚ := (List.zipWith (fun a b => a * b) u v).sum

/-- The witness nodes, after the spec scenario: `A = [1,0]`, `B = [1,0]`,
`C = [0,1]`. -/
def witnessNodes : List GraphNode :=
  [{ id := "A", embedding := some [1, 0] },
   { id := "B", embedding := some [1, 0] },
   { id := "C", embedding := some [0, 1] }]

/-- Witness for C1: on the witness vectors the builder emits exactly the
edge `(A, B)` with similarity `1` and no edge involving `C`, and the
theorem bounds the emitted edge by the threshold. -/
theorem createEmbeddingBasedLinks_threshold_witness :
    (createEmbeddingBasedLinks witnessSettings dotSim (fun q => q) []
        witnessNodes =
      [{ source := "A", target := "B", id := "A<->B", similarity := 1,
         thickness := JSNum.nan }]) ∧
    ({ source := "A", target := "B", id := "A<->B", similarity := 1,
       thickness := JSNum.nan : SimilarityLink }).similarity ≥
      witnessSettings.similarityThreshold := by
  have heq : createEmbeddingBasedLinks witnessSettings dotSim (fun q => q) []
      witnessNodes =
      [{ source := "A", target := "B", id := "A<->B", similarity := 1,
         thickness := JSNum.nan }] := by
    have hAB : ("A" : String) < "B" := String.lt_iff_toList_lt.mpr (by decide)
    have hne : ("A" : String) ≠ "B" := by decide
    have hne2 : ("B" : String) ≠ "A" := by decide
    have happ1 : "A" ++ "|" ++ "B" = "A|B" := rfl
    have happ2 : "A" ++ "<->" ++ "B" = "A<->B" := rfl
    have happ3 : "B" ++ "|" ++ "A" = "B|A" := rfl
    have happ4 : "B" ++ "<->" ++ "A" = "B<->A" := rfl
    have hne3 : ("B|A" : String) ≠ "A|B" := by decide
    have hne4 : ("A|B" : String) ≠ "B|A" := by decide
    have hle : (['A'] : List Char) ≤ ['B'] := by decide
    norm_num [createEmbeddingBasedLinks, outerLoop, innerLoop, manualKeySet,
      addPairCands, ensureCandKey, hasCandKey, pushCand, dotSim, emitNode,
      emitCand, pruneCandidates, sortDesc, insertDesc, pairKey,
      calculateThicknessFromSimilarity, jsDiv, jsMulNum, jsAddNum,
      witnessSettings, witnessNodes, hAB, hne, hne2, happ1, happ2, happ3,
      happ4, hne3, hne4, hle]
  exact ⟨heq,
    createEmbeddingBasedLinks_threshold witnessSettings dotSim (fun q => q)
      [] witnessNodes _ (by rw [heq]; exact List.mem_singleton.mpr rfl)⟩

/-- Two links connecting the same unordered pair of endpoints. -/
def sameEndpoints (l1 l2 : SimilarityLink) : Prop :=
  (l1.source = l2.source ∧ l1.target = l2.target) ∨
  (l1.source = l2.target ∧ l1.target = l2.source)

theorem pairKey_comm (a b : String) : pairKey a b = pairKey b a := by
  unfold pairKey
  rcases lt_trichotomy a b with h | h | h
  · rw [if_pos h, if_neg (lt_asymm h)]
  · subst h; rfl
  · rw [if_neg (lt_asymm h), if_pos h]

/-- The emission invariant: every emitted link's order-independent key is
in `addedPairs`, and no two emitted links share their unordered
endpoints. -/
def EmitInv (acc : List String × List SimilarityLink) : Prop :=
  (∀ l ∈ acc.2, pairKey l.source l.target ∈ acc.1) ∧
  List.Pairwise (fun l1 l2 => ¬ sameEndpoints l1 l2) acc.2

theorem emitCand_inv {s : BuildSettings} {nodeId : String}
    {acc : List String × List SimilarityLink} {c : Cand}
    (h : EmitInv acc) : EmitInv (emitCand s nodeId acc c) := by
  unfold emitCand
  dsimp only
  by_cases hk : pairKey nodeId c.otherId ∈ acc.1
  · rw [if_pos hk]
    exact h
  · rw [if_neg hk]
    constructor
    · intro l hl
      dsimp only at hl ⊢
      rcases List.mem_append.mp hl with h1 | h1
      · exact List.mem_append.mpr (Or.inl (h.1 l h1))
      · rcases List.mem_singleton.mp h1 with rfl
        exact List.mem_append.mpr (Or.inr (by simp))
    · dsimp only
      rw [List.pairwise_append]
      refine ⟨h.2, List.pairwise_singleton _ _, ?_⟩
      intro l1 hl1 l2 hl2
      rcases List.mem_singleton.mp hl2 with rfl
      intro hsame
      apply hk
      have hkey : pairKey l1.source l1.target =
          pairKey nodeId c.otherId := by
        rcases hsame with ⟨h1, h2⟩ | ⟨h1, h2⟩
        · rw [h1, h2]
        · rw [h1, h2, pairKey_comm]
      rw [← hkey]
      exact h.1 l1 hl1

theorem emitFold_inv {s : BuildSettings} {nodeId : String}
    (pruned : List Cand) :
    ∀ acc : List String × List SimilarityLink, EmitInv acc →
      EmitInv (pruned.foldl (emitCand s nodeId) acc) := by
  induction pruned with
  | nil => intro acc h; exact h
  | cons c cs ih => intro acc h; exact ih _ (emitCand_inv h)

theorem emitNodes_inv {s : BuildSettings} {sqrtf : ℚ → ℚ} (m : CandMap) :
    ∀ acc : List String × List SimilarityLink, EmitInv acc →
      EmitInv (m.foldl (emitNode s sqrtf) acc) := by
  induction m with
  | nil => intro acc h; exact h
  | cons e es ih =>
    intro acc h
    apply ih
    unfold emitNode
    split
    · exact h
    · exact emitFold_inv _ acc h

/-- C2: the emitted similarity edge list contains each unordered pair of
endpoints at most once — no two emitted links connect the same two nodes,
in either orientation. -/
theorem createEmbeddingBasedLinks_nodup (s : BuildSettings)
    (simf : List ℚ → List ℚ → ℚ) (sqrtf : ℚ → ℚ)
    (manualPairs : List (String × String)) (nodes : List GraphNode) :
    List.Pairwise (fun l1 l2 => ¬ sameEndpoints l1 l2)
      (createEmbeddingBasedLinks s simf sqrtf manualPairs nodes) := by
  unfold createEmbeddingBasedLinks
  exact (emitNodes_inv _ ([], [])
    ⟨fun l hl => absurd hl (List.not_mem_nil l), List.Pairwise.nil⟩).2

/-- The empty cache state at clock `0`. -/
def emptyGenState : GenState :=
  { files := [], embeddings := [], now := 0, processed := 0, failed := 0 }

/-- The C6 failing input: document `A` succeeds, `X` hits a quota (429)
error, and five documents are still pending. -/
def quotaDocs : List Doc :=
  [{ path := "A", mtime := 0, outcome := Outcome.ok [1] },
   { path := "X", mtime := 0, outcome := Outcome.err true },
   { path := "P1", mtime := 0, outcome := Outcome.ok [1] },
   { path := "P2", mtime := 0, outcome := Outcome.ok [1] },
   { path := "P3", mtime := 0, outcome := Outcome.ok [1] },
   { path := "P4", mtime := 0, outcome := Outcome.ok [1] },
   { path := "P5", mtime := 0, outcome := Outcome.ok [1] }]

/-- C6: on a quota error the run does stop before the pending documents
and the documents that succeeded earlier stay `'up-to-date'` — but the
failing document `X` itself is left with status `'processing'` (the
`break` on line 201 runs before the `'modified'` marking on line 205),
not `'modified'` or unset as the claim states; a later `getFileStatus`
even reports it `'up-to-date'`, so it is never retried. -/
theorem quota_stop_leaves_processing :
    (lookupKey (generateIncrementalEmbeddings emptyGenState quotaDocs).files
      "A" = some { path := "A", lastModified := 0, embeddingGenerated := 1,
                   status := Status.upToDate }) ∧
    (lookupKey (generateIncrementalEmbeddings emptyGenState quotaDocs).files
      "X" = some { path := "X", lastModified := 0, embeddingGenerated := 2,
                   status := Status.processing }) ∧
    (lookupKey (generateIncrementalEmbeddings emptyGenState quotaDocs).files
      "P1" = none) ∧
    (lookupKey (generateIncrementalEmbeddings emptyGenState quotaDocs).files
      "P5" = none) ∧
    (generateIncrementalEmbeddings emptyGenState quotaDocs).processed = 1 ∧
    (generateIncrementalEmbeddings emptyGenState quotaDocs).failed = 1 ∧
    getFileStatus (generateIncrementalEmbeddings emptyGenState
      quotaDocs).files "X" 0 = Status.upToDate := by
  decide

/-- The C8 failing input: the provider returns a zero-length vector for
the only stale document. -/
def emptyVecDocs : List Doc :=
  [{ path := "E", mtime := 0, outcome := Outcome.ok [] }]

/-- C8: when the provider returns a zero-length embedding, no vector is
stored and the failure counter advances — but the record's status is left
at `'processing'` (lines 177-180 update nothing), not set to
`'modified'` as the claim states; since `embeddingGenerated` was set at
the start of the attempt, `getFileStatus` then reports the document
`'up-to-date'` and it is not retried. -/
theorem empty_embedding_leaves_processing :
    (lookupKey (generateIncrementalEmbeddings emptyGenState emptyVecDocs).files
      "E" = some { path := "E", lastModified := 0, embeddingGenerated := 0,
                   status := Status.processing }) ∧
    lookupKey (generateIncrementalEmbeddings emptyGenState
      emptyVecDocs).embeddings "E" = none ∧
    (generateIncrementalEmbeddings emptyGenState emptyVecDocs).processed = 0 ∧
    (generateIncrementalEmbeddings emptyGenState emptyVecDocs).failed = 1 ∧
    getFileStatus (generateIncrementalEmbeddings emptyGenState
      emptyVecDocs).files "E" 0 = Status.upToDate := by
  decide

/-! ### Idempotence of the text normalization (C9) -/

/-- The four removal passes leave the string unchanged: the formal
reading of "contains no headings, code blocks, links, or front-matter". -/
def noRemovableSyntax (s : List Char) : Prop :=
  headingRemoval s = s ∧ removeFrontmatter s = s ∧
  codeRemoval s = s ∧ linkRemoval s = s

theorem wordsGo_good (s : List Char) :
    ∀ cur : List Char, (∀ ch ∈ cur, isWs ch = false) →
    ∀ w ∈ wordsGo s cur, w ≠ [] ∧ ∀ ch ∈ w, isWs ch = false := by
  induction s with
  | nil =>
    intro cur hcur w hw
    unfold wordsGo at hw
    by_cases hc : cur.isEmpty
    · simp [hc] at hw
    · rw [if_neg hc] at hw
      rcases List.mem_singleton.mp hw with rfl
      refine ⟨by simpa using fun h => hc (by simp [h]), ?_⟩
      intro ch hch
      exact hcur ch (List.mem_reverse.mp hch)
  | cons c rest ih =>
    intro cur hcur w hw
    unfold wordsGo at hw
    by_cases hc : isWs c
    · rw [if_pos hc] at hw
      by_cases hcur0 : cur.isEmpty
      · rw [if_pos hcur0] at hw
        exact ih [] (by simp) w hw
      · rw [if_neg hcur0] at hw
        rcases List.mem_cons.mp hw with rfl | hw2
        · refine ⟨by simpa using fun h => hcur0 (by simp [h]), ?_⟩
          intro ch hch
          exact hcur ch (List.mem_reverse.mp hch)
        · exact ih [] (by simp) w hw2
    · rw [if_neg hc] at hw
      refine ih (c :: cur) ?_ w hw
      intro ch hch
      rcases List.mem_cons.mp hch with rfl | hch2
      · exact Bool.not_eq_true _ ▸ (by simpa using hc)
      · exact hcur ch hch2

theorem wordsOf_good (s : List Char) :
    ∀ w ∈ wordsOf s, w ≠ [] ∧ ∀ ch ∈ w, isWs ch = false :=
  wordsGo_good s [] (by simp)

theorem wordsGo_append (w : List Char) (hw : ∀ ch ∈ w, isWs ch = false) :
    ∀ (tail cur : List Char),
      wordsGo (w ++ tail) cur = wordsGo tail (w.reverse ++ cur) := by
  induction w with
  | nil => intro tail cur; simp
  | cons c w2 ih =>
    intro tail cur
    have hc : isWs c = false := hw c (List.mem_cons_self c w2)
    have step : wordsGo ((c :: w2) ++ tail) cur = wordsGo (w2 ++ tail) (c :: cur) := by
      simp only [List.cons_append]
      conv_lhs => rw [wordsGo]
      rw [if_neg (by simp [hc])]
    rw [step, ih (fun ch hch => hw ch (List.mem_cons_of_mem c hch)) tail (c :: cur)]
    simp [List.append_assoc]

theorem wordsOf_joinSp (ws : List (List Char))
    (h : ∀ w ∈ ws, w ≠ [] ∧ ∀ ch ∈ w, isWs ch = false) :
    wordsOf (joinSp ws) = ws := by
  induction ws with
  | nil => simp [wordsOf, wordsGo, joinSp]
  | cons w ws2 ih =>
    have hw := h w (List.mem_cons_self w ws2)
    cases ws2 with
    | nil =>
      show wordsOf (joinSp [w]) = [w]
      unfold joinSp wordsOf
      rw [show w = w ++ [] from (List.append_nil w).symm,
        wordsGo_append w hw.2 [] []]
      unfold wordsGo
      rw [if_neg (by simpa using hw.1)]
      simp
    | cons w2 ws3 =>
      show wordsOf (joinSp (w :: w2 :: ws3)) = w :: w2 :: ws3
      unfold joinSp wordsOf
      rw [wordsGo_append w hw.2 (' ' :: joinSp (w2 :: ws3)) []]
      unfold wordsGo
      rw [if_pos (by simp [isWs]), if_neg (by simpa using hw.1)]
      have := ih (fun w3 hw3 => h w3 (List.mem_cons_of_mem w hw3))
      unfold wordsOf at this
      simp [this]

theorem dropWhile_eq_self_of_all {p : Char → Bool} {l : List Char}
    (h : ∀ ch ∈ l, p ch = false) : l.dropWhile p = l := by
  cases l with
  | nil => rfl
  | cons c rest =>
    rw [List.dropWhile_cons, if_neg (by simp [h c (List.mem_cons_self c rest)])]

theorem joinSp_ne_nil (w : List Char) (ws : List (List Char))
    (hw : w ≠ []) : joinSp (w :: ws) ≠ [] := by
  cases ws with
  | nil => simpa [joinSp] using hw
  | cons w2 ws2 => simp [joinSp, hw]

theorem dropWhile_joinSp (ws : List (List Char))
    (h : ∀ w ∈ ws, w ≠ [] ∧ ∀ ch ∈ w, isWs ch = false) :
    (joinSp ws).dropWhile isWs = joinSp ws := by
  cases ws with
  | nil => rfl
  | cons w ws2 =>
    have hw := h w (List.mem_cons_self w ws2)
    cases hwshape : w with
    | nil => exact absurd hwshape hw.1
    | cons c w2 =>
      have hc : isWs c = false := hw.2 c (by rw [hwshape]; exact List.mem_cons_self _ _)
      cases ws2 with
      | nil =>
        simp only [joinSp, hwshape]
        rw [List.dropWhile_cons, if_neg (by simp [hc])]
      | cons w3 ws3 =>
        simp only [joinSp, hwshape, List.cons_append]
        rw [List.dropWhile_cons, if_neg (by simp [hc])]

theorem dropWhile_reverse_joinSp (ws : List (List Char))
    (h : ∀ w ∈ ws, w ≠ [] ∧ ∀ ch ∈ w, isWs ch = false) :
    (joinSp ws).reverse.dropWhile isWs = (joinSp ws).reverse := by
  induction ws with
  | nil => rfl
  | cons w ws2 ih =>
    have hw := h w (List.mem_cons_self w ws2)
    cases ws2 with
    | nil =>
      show (joinSp [w]).reverse.dropWhile isWs = (joinSp [w]).reverse
      unfold joinSp
      exact dropWhile_eq_self_of_all
        (fun ch hch => hw.2 ch (List.mem_reverse.mp hch))
    | cons w2 ws3 =>
      have ihh := ih (fun w3 hw3 => h w3 (List.mem_cons_of_mem w hw3))
      have hne : (joinSp (w2 :: ws3)).reverse ≠ [] := by
        simpa using joinSp_ne_nil w2 ws3 (h w2 (by simp)).1
      show ((joinSp (w :: w2 :: ws3)).reverse).dropWhile isWs =
        (joinSp (w :: w2 :: ws3)).reverse
      have hshape : (joinSp (w :: w2 :: ws3)).reverse =
          (joinSp (w2 :: ws3)).reverse ++ (' ' :: w.reverse) := by
        rw [show joinSp (w :: w2 :: ws3) = w ++ ' ' :: joinSp (w2 :: ws3)
          from rfl]
        simp
      rw [hshape, List.dropWhile_append, ihh,
        if_neg (by simpa using hne), ← ihh]

/-- Trimming is the identity on a joined word list whose words are
nonempty and whitespace-free. -/
theorem trim_joinSp (ws : List (List Char))
    (h : ∀ w ∈ ws, w ≠ [] ∧ ∀ ch ∈ w, isWs ch = false) :
    trimChars (joinSp ws) = joinSp ws := by
  unfold trimChars
  rw [dropWhile_joinSp ws h, dropWhile_reverse_joinSp ws h,
    List.reverse_reverse]

/-- With headings excluded, the normalizer's output is the trimmed join
of a list of selected words, each nonempty, whitespace-free and not a
stop word, and there are at most `wordLimit` of them. -/
theorem extract_shape (cfg : ExtractSettings) (c : List Char)
    (hexcl : cfg.excludeHeadingsFromEmbedding = true) :
    ∃ sel : List (List Char),
      extractHeadingsAndFirstWords cfg c = trimChars (joinSp sel) ∧
      (∀ w ∈ sel, w ≠ [] ∧ (∀ ch ∈ w, isWs ch = false) ∧
        isStop w = false) ∧
      sel.length ≤ cfg.wordLimit := by
  simp only [extractHeadingsAndFirstWords, hexcl, if_true]
  refine ⟨_, rfl, ?_, ?_⟩
  · intro w hw
    have h1 := List.take_subset _ _ (List.drop_subset _ _ hw)
    have h2 := List.mem_of_mem_filter h1
    have h3 := List.of_mem_filter h1
    have h4 := wordsOf_good _ w h2
    exact ⟨h4.1, h4.2, by simpa using h3⟩
  · rw [List.length_drop, List.length_take]
    omega

/-- C9 (amended): the normalizer is idempotent on its own output —
provided the configured word skip is `0` (a positive skip drops further
words on every application) and headings are excluded from the output (a
retained heading block is re-tokenized, its `\n\n` collapsing to a
space) — whenever that output contains no headings, code fences, links
or front-matter (the four removal passes leave it unchanged). -/
theorem extract_idempotent (cfg : ExtractSettings) (c : List Char)
    (hskip : cfg.embeddingWordSkip ≤ 0)
    (hexcl : cfg.excludeHeadingsFromEmbedding = true)
    (hnorm : noRemovableSyntax (extractHeadingsAndFirstWords cfg c)) :
    extractHeadingsAndFirstWords cfg (extractHeadingsAndFirstWords cfg c) =
      extractHeadingsAndFirstWords cfg c := by
  obtain ⟨sel, hs, hgood, hlen⟩ := extract_shape cfg c hexcl
  have hgood2 : ∀ w ∈ sel, w ≠ [] ∧ ∀ ch ∈ w, isWs ch = false :=
    fun w hw => ⟨(hgood w hw).1, (hgood w hw).2.1⟩
  have hs2 : extractHeadingsAndFirstWords cfg c = joinSp sel := by
    rw [hs, trim_joinSp sel hgood2]
  rw [hs2] at hnorm ⊢
  simp only [extractHeadingsAndFirstWords, hexcl, if_true]
  rw [hnorm.2.1, hnorm.1, hnorm.2.2.1, hnorm.2.2.2,
    trim_joinSp sel hgood2, wordsOf_joinSp sel hgood2,
    List.filter_eq_self.mpr (fun w hw => by simp [(hgood w hw).2.2]),
    Int.toNat_of_nonpos hskip, Nat.zero_add, min_eq_left hlen,
    List.take_length, List.drop_zero, trim_joinSp sel hgood2]

/-- The configuration of the C9 counterexample: word skip `1`. -/
def skipOneSettings : ExtractSettings :=
  { wordLimit := 100, embeddingWordSkip := 1,
    excludeHeadingsFromEmbedding := true }

/-- C9 counterexample: with word skip `1`, the output of the normalizer
on `"alpha beta gamma"` is `"beta gamma"` — which contains no headings,
code blocks, links or front-matter — yet a second application returns
`"gamma"`: the skip is re-applied, so the claim fails as stated for
configurations with a positive word skip. -/
theorem extract_not_idempotent :
    extractHeadingsAndFirstWords skipOneSettings "alpha beta gamma".data =
      "beta gamma".data ∧
    noRemovableSyntax
      (extractHeadingsAndFirstWords skipOneSettings
        "alpha beta gamma".data) ∧
    extractHeadingsAndFirstWords skipOneSettings
        (extractHeadingsAndFirstWords skipOneSettings
          "alpha beta gamma".data) ≠
      extractHeadingsAndFirstWords skipOneSettings
        "alpha beta gamma".data := by
  have h1 : extractHeadingsAndFirstWords skipOneSettings
      "alpha beta gamma".data = "beta gamma".data := by
    simp [extractHeadingsAndFirstWords, extractHeadings, headingExtractGo,
      headingMatch, leadHashes, isWs, removeFrontmatter, frontmatterGo,
      startsTriple, headingRemoval, headingRemovalGo, codeRemoval, codeGo,
      backquote, linkRemoval, linkGo, tryLink, trimChars, wordsOf, wordsGo,
      isStop, STOP, joinSp, skipOneSettings]
  have h2 : extractHeadingsAndFirstWords skipOneSettings
      "beta gamma".data = "gamma".data := by
    simp [extractHeadingsAndFirstWords, extractHeadings, headingExtractGo,
      headingMatch, leadHashes, isWs, removeFrontmatter, frontmatterGo,
      startsTriple, headingRemoval, headingRemovalGo, codeRemoval, codeGo,
      backquote, linkRemoval, linkGo, tryLink, trimChars, wordsOf, wordsGo,
      isStop, STOP, joinSp, skipOneSettings]
  refine ⟨h1, ?_, ?_⟩
  · rw [h1]
    refine ⟨?_, ?_, ?_, ?_⟩
    · simp [headingRemoval, headingRemovalGo, headingMatch, leadHashes, isWs]
    · simp [removeFrontmatter, frontmatterGo, startsTriple]
    · simp [codeRemoval, codeGo, startsTriple, backquote]
    · simp [linkRemoval, linkGo, tryLink]
  · rw [h1, h2]
    decide

/-- The configuration of the C9 witness: word skip `0` (the default). -/
def zeroSkipSettings : ExtractSettings :=
  { wordLimit := 100, embeddingWordSkip := 0,
    excludeHeadingsFromEmbedding := true }

/-- Witness for C9 (amended): with word skip `0` the normalizer fixes its
own output on a concrete document. -/
theorem extract_idempotent_witness :
    extractHeadingsAndFirstWords zeroSkipSettings
        (extractHeadingsAndFirstWords zeroSkipSettings
          "alpha beta gamma".data) =
      extractHeadingsAndFirstWords zeroSkipSettings
        "alpha beta gamma".data :=
  extract_idempotent zeroSkipSettings "alpha beta gamma".data
    (by decide) rfl
    (by
      have h1 : extractHeadingsAndFirstWords zeroSkipSettings
          "alpha beta gamma".data = "alpha beta gamma".data := by
        simp [extractHeadingsAndFirstWords, extractHeadings,
          headingExtractGo, headingMatch, leadHashes, isWs,
          removeFrontmatter, frontmatterGo, startsTriple, headingRemoval,
          headingRemovalGo, codeRemoval, codeGo, backquote, linkRemoval,
          linkGo, tryLink, trimChars, wordsOf, wordsGo, isStop, STOP,
          joinSp, zeroSkipSettings]
      rw [h1]
      refine ⟨?_, ?_, ?_, ?_⟩
      · simp [headingRemoval, headingRemovalGo, headingMatch, leadHashes,
          isWs]
      · simp [removeFrontmatter, frontmatterGo, startsTriple]
      · simp [codeRemoval, codeGo, startsTriple, backquote]
      · simp [linkRemoval, linkGo, tryLink])

end Graphene
